import Mathlib

/-!
# Verification of the loadgen cleanup tracker and control plane

Shallow embedding of `loadgen/internal/cleanup/cleanup.go`, the chaos
transport (`internal/chaos`), the chat behavior's `SendMessage`
(`internal/behaviors/chat.go`) and the control-plane web server
(`internal/web/server.go`).  Network effects are modelled by passing the
responses of the downstream services as explicit oracles; PRNG draws are
passed as explicit inputs.
-/

namespace Loadgen

/-! ## Downstream-service responses

`client.Do` either fails at the transport level (`err != nil` in Go,
modelled as `transportErr`) or yields a response with a status code. -/

inductive DeleteResp where
  | transportErr
  | status (code : Nat)
deriving DecidableEq, Repr

/-- The user service's behaviour on `DELETE /api/users/{u}`, one response
per username (each username is deleted at most once per operation). -/
def SvcOracle := String → DeleteResp

/-! ## `Cleanup.AddUser` / `Cleanup.GetTrackedUsers`

`cleanup.go` lines 192–204 (the deduplicating version): `AddUser` scans
the tracked list and appends only when the username is absent;
`GetTrackedUsers` returns the slice itself. -/

def addUser (users : List String) (username : String) : List String :=
  if username ∈ users then users else users ++ [username]

/-- A sequence of `AddUser` calls starting from a given tracked list. -/
def addUsers (users : List String) (calls : List String) : List String :=
  calls.foldl addUser users

/-- Mathematical characterisation used to state claim C8: keep the first
occurrence of each element, in order. -/
def firstSeen : List String → List String
  | [] => []
  | u :: rest => u :: (firstSeen (rest.filter (fun v => v ≠ u)))
termination_by l => l.length
decreasing_by
  simp only [List.length_cons]
  exact Nat.lt_succ_of_le (List.length_filter_le _ _)

/-! ## `Cleanup.cleanupUsers` (lines 252–278)

Sequentially issues `DELETE {user_service}/api/users/{u}` for each
username; status 200 or 204 appends to `deleted`, a transport error
records `failed[u] = 0`, any other status records `failed[u] = code`.
The Go map `failed` is modelled as an association list built in request
order (the usernames handed to `cleanupUsers` are pairwise distinct on
every call site, so the association list is a faithful map). -/

def cleanupUsers (svc : SvcOracle) (users : List String) :
    List String × List (String × Nat) :=
  users.foldl
    (fun acc u =>
      match svc u with
      | .transportErr => (acc.1, acc.2 ++ [(u, 0)])
      | .status code =>
          if code = 200 ∨ code = 204 then (acc.1 ++ [u], acc.2)
          else (acc.1, acc.2 ++ [(u, code)]))
    ([], [])

/-- `strings.HasPrefix(s, "user_")`, computed over the character list of the
string (Go strings are byte slices; all usernames involved are ASCII). -/
def hasUserPrefix (s : String) : Bool := "user_".data.isPrefixOf s.data

/-! ## `Cleanup.ReduceLoad` (lines 206–248)

`usersToDelete <= 0 || usersToDelete > len(c.users)` resets the count to
`len(c.users)`.  A copy of the tracked list is shuffled (`rand.Shuffle`,
modelled by an explicit `shuffle` argument) and the first `usersToDelete`
entries are selected.  `cleanupUsers` is run on the selection; the
best-effort chat/posts cascade (lines 227–228) touches neither the tracked
list nor the return value and is not modelled.  Every tracked username that
occurs in `selectedUsers` — deleted or not — is dropped from the tracked
list (lines 231–244).  Returns the count of successful deletions and the
new tracked list. -/

def reduceLoad (svc : SvcOracle) (shuffle : List String → List String)
    (users : List String) (usersToDelete : Int) : Nat × List String :=
  let n : Int :=
    if usersToDelete ≤ 0 ∨ usersToDelete > users.length then (users.length : Int)
    else usersToDelete
  let all := shuffle users
  let selected := if n < all.length then all.take n.toNat else all
  let deletedList := (cleanupUsers svc selected).1
  let remaining := users.filter (fun u => u ∉ selected)
  (deletedList.length, remaining)

/-! ## `Cleanup.DeleteUser` (lines 502–523)

Rejects empty names and names without the `user_` prefix with status 400
and no network traffic; otherwise runs the single name through
`cleanupUsers` and removes it from the tracked list only on success. -/

def deleteUser (svc : SvcOracle) (users : List String) (username : String) :
    Bool × Nat × List String :=
  if username = "" ∨ ¬ hasUserPrefix username then (false, 400, users)
  else
    let res := cleanupUsers svc [username]
    if res.1.length = 1 then
      (true, 200, users.filter (fun u => u ≠ username))
    else
      match res.2.lookup username with
      | some code => (false, code, users)
      | none => (false, 0, users)

/-! ## Dashboard decoding (`DeleteTestUsers`, lines 283–379)

`GET /api/users/dashboard` either fails at transport level, fails to
decode as a JSON object, or decodes; a decoded body whose `users` field is
missing or not an array yields no entries, which is modelled as `ok []`
(the code then proceeds with an empty candidate list, exactly as for an
empty array). Array items are strings, objects (whose `username` field may
be absent or not a string), or values of any other type. -/

inductive DashEntry where
  | str (s : String)
  | obj (username : Option String)
  | other
deriving DecidableEq, Repr

inductive DashResp where
  | transportErr
  | decodeErr
  | ok (entries : List DashEntry)
deriving DecidableEq, Repr

/-- The candidate-extraction loop (lines 305–323 / 404–422): keep strings
and object `username` fields that carry the `user_` prefix, in order. -/
def extractCandidates (entries : List DashEntry) : List String :=
  entries.foldl
    (fun acc e =>
      match e with
      | .str s => if hasUserPrefix s then acc ++ [s] else acc
      | .obj (some u) => if hasUserPrefix u then acc ++ [u] else acc
      | .obj none => acc
      | .other => acc)
    []

/-- The `seen` map loop (lines 340–347): drop repeated usernames, keeping
the first occurrence of each. -/
def dedupFirst (l : List String) : List String :=
  l.foldl (fun acc s => if s ∈ acc then acc else acc ++ [s]) []

/-- `Cleanup.DeleteTestUsers` (lines 283–379).  Returns
`(deleted, failed, new tracked list)`.  Note the early returns on
transport error (line 294) and decode error (line 301): the tracked-list
fallback (lines 326–332) runs only when the dashboard response decoded and
produced no candidates. -/
def deleteTestUsers (svc : SvcOracle) (shuffle : List String → List String)
    (dash : DashResp) (users : List String) (count : Int) :
    List String × List (String × Nat) × List String :=
  if count ≤ 0 then ([], [], users)
  else
    match dash with
    | .transportErr => ([], [], users)
    | .decodeErr => ([], [], users)
    | .ok entries =>
      let fromDash := extractCandidates entries
      let candidates := if fromDash.isEmpty then users.filter hasUserPrefix else fromDash
      if candidates.isEmpty then ([], [], users)
      else
        let uniq := shuffle (dedupFirst candidates)
        let toDelete := if count < uniq.length then uniq.take count.toNat else uniq
        let res := cleanupUsers svc toDelete
        let remaining := users.filter (fun u => u ∉ res.1)
        (res.1, res.2, remaining)

/-! ## `Cleanup.DeleteRandomTestUsersConcurrent` launch loop (lines 466–489)

The loop over `toDelete` polls the context with
`select { case <-ctx.Done(): break; default: }` and then launches a
deletion goroutine.  In Go, `break` inside a `select` terminates the
`select` statement only — not the enclosing `for` — so both branches fall
through to the launch.  The embedding keeps the two branches separate so
this is visible. -/

inductive SelectBranch where
  | ctxDone
  | defaultCase
deriving DecidableEq, Repr

/-- The non-blocking poll: the `ctx.Done()` branch is taken exactly when
the context is already cancelled at that iteration. -/
def selectPoll (done : Bool) : SelectBranch :=
  if done then .ctxDone else .defaultCase

/-- The usernames for which a deletion goroutine is launched, given which
iterations observe a cancelled context (`ctxDone i` = the context is
cancelled when candidate `i` is reached). -/
def concurrentLaunches (ctxDone : Nat → Bool) (toDelete : List String) :
    List String :=
  go 0 toDelete
where
  go : Nat → List String → List String
    | _, [] => []
    | i, u :: rest =>
      match selectPoll (ctxDone i) with
      | .ctxDone => u :: go (i + 1) rest
      | .defaultCase => u :: go (i + 1) rest

/-! ## Oracles used for concrete evaluations -/

/-- A user service that acknowledges every deletion with 200. -/
def svcAlwaysOk : SvcOracle := fun _ => .status 200

/-- A user service that answers 500 to every deletion. -/
def svcAlways500 : SvcOracle := fun _ => .status 500

end Loadgen

namespace Loadgen

example : addUser ["user_1"] "user_1" = ["user_1"] := by decide
example : hasUserPrefix "user_1" = true := by decide
example : hasUserPrefix "bob" = false := by decide
example : cleanupUsers svcAlways500 ["user_1"]
    = ([], [("user_1", 500)]) := by decide
example : reduceLoad svcAlwaysOk id ["user_1"] 0 = (1, []) := by decide
example : deleteTestUsers svcAlwaysOk id .transportErr ["user_1"] 1
    = ([], [], ["user_1"]) := by decide
example : deleteTestUsers svcAlwaysOk id (.ok []) ["user_1"] 1
    = (["user_1"], [], []) := by decide
example : deleteUser svcAlwaysOk ["user_1", "user_2"] "user_1"
    = (true, 200, ["user_2"]) := by decide
example : deleteUser svcAlwaysOk ["bob"] "bob" = (false, 400, ["bob"]) := by decide
example : concurrentLaunches (fun _ => true) ["user_1", "user_2"]
    = ["user_1", "user_2"] := by decide

/-! ## Helper lemmas about the tracker -/

lemma firstSeen_cons (u : String) (l : List String) :
    firstSeen (u :: l) = u :: firstSeen (l.filter (fun v => v ≠ u)) := by
  rw [firstSeen]

lemma addUsers_cons (acc : List String) (u : String) (rest : List String) :
    addUsers acc (u :: rest) = addUsers (addUser acc u) rest := rfl

lemma addUsers_eq_firstSeen (calls : List String) : ∀ acc : List String,
    addUsers acc calls = acc ++ firstSeen (calls.filter (fun u => u ∉ acc)) := by
  induction calls with
  | nil => intro acc; simp [addUsers, firstSeen]
  | cons u rest ih =>
    intro acc
    by_cases hu : u ∈ acc
    · rw [addUsers_cons, addUser, if_pos hu, ih]
      simp [List.filter_cons, hu]
    · rw [addUsers_cons, addUser, if_neg hu, ih]
      have hstep : (u :: rest).filter (fun v => v ∉ acc)
          = u :: rest.filter (fun v => v ∉ acc) := by
        simp [hu]
      have hfil : rest.filter (fun v => v ∉ acc ++ [u])
          = (rest.filter (fun v => v ∉ acc)).filter (fun v => v ≠ u) := by
        rw [List.filter_filter]
        apply List.filter_congr
        intro v _
        by_cases hv : v ∈ acc <;> by_cases hvu : v = u <;>
          simp [hv, hvu, List.mem_append]
      rw [hstep, firstSeen_cons, hfil]
      simp

lemma addUser_nodup {acc : List String} (h : acc.Nodup) (u : String) :
    (addUser acc u).Nodup := by
  by_cases hu : u ∈ acc
  · simpa [addUser, hu] using h
  · simp [addUser, hu, List.nodup_append, h]

lemma addUsers_nodup (calls : List String) : ∀ acc : List String,
    acc.Nodup → (addUsers acc calls).Nodup := by
  induction calls with
  | nil => intro acc h; simpa [addUsers] using h
  | cons u rest ih =>
    intro acc h
    rw [addUsers_cons]
    exact ih _ (addUser_nodup h u)

/-- Claim C8: `Add` is idempotent and order-preserving — starting from an
empty tracked list, any sequence of `AddUser` calls yields exactly the
distinct usernames in first-seen order, without duplicates, and a repeated
`AddUser` of the same name is a no-op. -/
theorem addUser_idempotent_first_seen_order :
    (∀ calls : List String,
        addUsers [] calls = firstSeen calls ∧ (addUsers [] calls).Nodup)
    ∧ ∀ (s : List String) (u : String), addUser (addUser s u) u = addUser s u := by
  refine ⟨fun calls => ⟨?_, addUsers_nodup calls [] List.nodup_nil⟩, ?_⟩
  · rw [addUsers_eq_firstSeen]
    simp
  · intro s u
    by_cases h : u ∈ s
    · simp [addUser, h]
    · simp [addUser, h]

/-- Claim C1 counterexample: with one tracked user and a user service that
acknowledges deletions, `ReduceLoad(0, ctx)` deletes that user and empties
the tracked list — it is not a no-op. -/
theorem reduceLoad_zero_counterexample :
    (reduceLoad svcAlwaysOk id ["user_1"] 0).1 ≠ 0
    ∧ (reduceLoad svcAlwaysOk id ["user_1"] 0).2 ≠ ["user_1"] := by decide

/-- Claim C1 (amended): `ReduceLoad(0, ctx)` treats a non-positive count as
"delete all": it selects the whole (shuffled) tracked list, attempts to
delete every tracked username, empties the tracked list, and returns the
number of acknowledged deletions; it is a no-op only when the tracked list
is already empty. -/
theorem reduceLoad_zero_deletes_all
    (svc : SvcOracle) (shuffle : List String → List String) (users : List String)
    (hperm : ∀ l : List String, (shuffle l).Perm l) :
    (reduceLoad svc shuffle users 0).2 = []
    ∧ (reduceLoad svc shuffle users 0).1
        = (cleanupUsers svc (shuffle users)).1.length := by
  have hlen : (shuffle users).length = users.length := (hperm users).length_eq
  have hsel : ¬ ((users.length : Int) < ((shuffle users).length : Int)) := by
    simp [hlen]
  constructor
  · simp only [reduceLoad, hsel, if_neg, if_pos (Or.inl (le_refl (0 : Int)))]
    rw [List.filter_eq_nil_iff]
    intro u hu
    simp [(hperm users).mem_iff.mpr hu]
  · simp [reduceLoad, hsel, if_pos (Or.inl (le_refl (0 : Int)))]

/-- Claim C1 witness. -/
theorem reduceLoad_zero_deletes_all_witness :
    (reduceLoad svcAlwaysOk id ["user_1"] 0).2 = []
    ∧ (reduceLoad svcAlwaysOk id ["user_1"] 0).1
        = (cleanupUsers svcAlwaysOk (id ["user_1"])).1.length :=
  reduceLoad_zero_deletes_all svcAlwaysOk id ["user_1"] (fun l => List.Perm.refl l)

/-- Claim C2: at the failing input — tracked list `["user_1"]`, a user
service answering 500, `ReduceLoad(1, ctx)` — the DELETE is not
acknowledged (`cleanupUsers` reports `user_1 ↦ 500` as failed and deletes
nothing), yet `ReduceLoad` still removes `user_1` from the tracked list,
contradicting invariant (I2). -/
theorem reduceLoad_drops_unacknowledged_user :
    cleanupUsers svcAlways500 ["user_1"] = ([], [("user_1", 500)])
    ∧ reduceLoad svcAlways500 id ["user_1"] 1 = (0, []) := by decide

/-- Claim C3: the cancellation guard in the concurrent-delete launch loop
is inert — `break` inside `select` leaves only the `select`, so a deletion
goroutine is launched for every candidate no matter when the context is
cancelled; in particular, with the context cancelled from the start, both
candidates are still launched. -/
theorem concurrentLaunches_ignore_cancellation :
    (∀ (ctxDone : Nat → Bool) (toDelete : List String),
        concurrentLaunches ctxDone toDelete = toDelete)
    ∧ concurrentLaunches (fun _ => true) ["user_1", "user_2"]
        = ["user_1", "user_2"] := by
  have go_eq : ∀ (ctxDone : Nat → Bool) (l : List String) (i : Nat),
      concurrentLaunches.go ctxDone i l = l := by
    intro ctxDone l
    induction l with
    | nil => intro i; rfl
    | cons u rest ih =>
      intro i
      by_cases h : ctxDone i
      · simp [concurrentLaunches.go, selectPoll, h, ih]
      · simp [concurrentLaunches.go, selectPoll, h, ih]
  exact ⟨fun d l => go_eq d l 0, go_eq _ _ 0⟩

/-- Claim C4 counterexample: with tracked list `["user_1"]` and a user
service that would acknowledge the deletion, a dashboard transport error
makes `DeleteTestUsers(1, ctx)` return empty results and leave the tracked
list untouched — no fallback to the tracked list happens — whereas a
decoded dashboard with no candidates does fall back and deletes `user_1`. -/
theorem deleteTestUsers_transport_error_no_fallback :
    deleteTestUsers svcAlwaysOk id .transportErr ["user_1"] 1
      = ([], [], ["user_1"])
    ∧ deleteTestUsers svcAlwaysOk id (.ok []) ["user_1"] 1
      = (["user_1"], [], []) := by decide

/-- Claim C4 (amended): the fallback to the tracked list (filtered by the
`user_` prefix) happens only when the dashboard query succeeds and decodes
but yields no candidate with the prefix; on a transport error or an
undecodable response, `DeleteTestUsers` returns empty results and leaves
the tracked list unchanged. -/
theorem deleteTestUsers_fallback_only_on_empty_candidates
    (svc : SvcOracle) (shuffle : List String → List String)
    (users : List String) (count : Int) (entries : List DashEntry)
    (hc : 0 < count) (hno : extractCandidates entries = []) :
    deleteTestUsers svc shuffle (.ok entries) users count
      = deleteTestUsers svc shuffle (.ok []) users count
    ∧ deleteTestUsers svc shuffle .transportErr users count = ([], [], users)
    ∧ deleteTestUsers svc shuffle .decodeErr users count = ([], [], users) := by
  have hcount : ¬ (count ≤ 0) := not_le.mpr hc
  have h0 : extractCandidates [] = [] := rfl
  refine ⟨?_, by simp [deleteTestUsers, hcount], by simp [deleteTestUsers, hcount]⟩
  simp only [deleteTestUsers, hcount, hno, h0, if_false, if_neg hcount]

/-! ## Chaos transport (`internal/chaos`, part_000 lines 707–757)

`chaosTransport.RoundTrip` first runs the delay branch: if
`rand.Float64() < DelayRate`, it computes
`time.Duration(rand.Intn(MaxDelayMs)) * time.Millisecond` and sleeps,
racing the sleep against `req.Context().Done()`.  PRNG draws are explicit
inputs: `delayRoll` is the `rand.Float64()` value (a rational in `[0,1)`),
`intnRoll` the raw value reduced by `rand.Intn`. -/

structure ChaosConfig where
  errorRate : ℚ
  delayRate : ℚ
  maxDelayMs : Int

/-- `rand.Intn(n)`: a uniform value in `[0, n)` for `n > 0`; for `n ≤ 0`
it panics, which is modelled as `none`. -/
def randIntn (r : Nat) (n : Int) : Option Nat :=
  if n ≤ 0 then none else some (r % n.toNat)

inductive DelayOutcome where
  | noDelay
  | slept (ms : Nat)
  | ctxCancelled
  | panicked
deriving DecidableEq, Repr

/-- The delay branch of `chaosTransport.RoundTrip` (lines 738–746).
`cancelledWithin d` is true when the request's context is cancelled before
`d` milliseconds of sleep elapse, in which case the branch returns
`ctx.Err()` instead of finishing the sleep. -/
def chaosDelayBranch (cfg : ChaosConfig) (delayRoll : ℚ) (intnRoll : Nat)
    (cancelledWithin : Nat → Bool) : DelayOutcome :=
  if delayRoll < cfg.delayRate then
    match randIntn intnRoll cfg.maxDelayMs with
    | none => .panicked
    | some d => if cancelledWithin d then .ctxCancelled else .slept d
  else .noDelay

/-- Claim C5 counterexample: with `delay_rate = 1` (within `[0,1]`) and
`max_delay_ms = 0` (within `≥ 0`), the delay branch fires and
`rand.Intn(0)` panics — the branch is not well-defined over the claimed
parameter range. -/
theorem chaosDelay_max_zero_panics :
    chaosDelayBranch ⟨0, 1, 0⟩ 0 0 (fun _ => false) = .panicked
    ∧ (0 : ℚ) ≤ 1 ∧ (1 : ℚ) ≤ 1 ∧ (0 : Int) ≥ 0 := by
  refine ⟨?_, by norm_num, by norm_num, by norm_num⟩
  simp [chaosDelayBranch, randIntn]

/-- Claim C5 (amended): for every chaos configuration with
`max_delay_ms ≥ 1`, the delay branch never faults: when it fires it sleeps
a uniform random duration in `[0, max_delay_ms)` milliseconds, and the
sleep is aborted (the branch returns the context's error) when the
request's context is cancelled during it.  With `max_delay_ms = 0` the
branch panics whenever it fires. -/
theorem chaosDelay_welldefined_when_positive
    (cfg : ChaosConfig) (delayRoll : ℚ) (intnRoll : Nat)
    (cancelledWithin : Nat → Bool) (hmax : 1 ≤ cfg.maxDelayMs) :
    chaosDelayBranch cfg delayRoll intnRoll cancelledWithin ≠ .panicked
    ∧ (∀ d, chaosDelayBranch cfg delayRoll intnRoll cancelledWithin = .slept d →
        d < cfg.maxDelayMs.toNat ∧ cancelledWithin d = false)
    ∧ (delayRoll < cfg.delayRate →
        cancelledWithin (intnRoll % cfg.maxDelayMs.toNat) = true →
        chaosDelayBranch cfg delayRoll intnRoll cancelledWithin = .ctxCancelled) := by
  have hn : ¬ (cfg.maxDelayMs ≤ 0) := by omega
  have hpos : 0 < cfg.maxDelayMs.toNat := by omega
  by_cases hroll : delayRoll < cfg.delayRate
  · refine ⟨?_, ?_, ?_⟩
    · by_cases hc : cancelledWithin (intnRoll % cfg.maxDelayMs.toNat) <;>
        simp [chaosDelayBranch, randIntn, hn, hroll, hc]
    · intro d hd
      by_cases hc : cancelledWithin (intnRoll % cfg.maxDelayMs.toNat)
      · simp [chaosDelayBranch, randIntn, hn, hroll, hc] at hd
      · simp [chaosDelayBranch, randIntn, hn, hroll, hc] at hd
        subst hd
        exact ⟨Nat.mod_lt _ hpos, by simpa using hc⟩
    · intro _ hc
      simp [chaosDelayBranch, randIntn, hn, hroll, hc]
  · refine ⟨?_, ?_, fun h => absurd h hroll⟩
    · simp [chaosDelayBranch, hroll]
    · intro d hd
      simp [chaosDelayBranch, hroll] at hd

/-- Claim C4 witness. -/
theorem deleteTestUsers_fallback_witness :
    deleteTestUsers svcAlwaysOk id (.ok [.obj none]) ["user_1"] 1
      = deleteTestUsers svcAlwaysOk id (.ok []) ["user_1"] 1
    ∧ deleteTestUsers svcAlwaysOk id .transportErr ["user_1"] 1
      = ([], [], ["user_1"])
    ∧ deleteTestUsers svcAlwaysOk id .decodeErr ["user_1"] 1
      = ([], [], ["user_1"]) :=
  deleteTestUsers_fallback_only_on_empty_candidates svcAlwaysOk id ["user_1"] 1
    [.obj none] (by decide) (by decide)

/-- Claim C5 witness. -/
theorem chaosDelay_welldefined_witness :
    chaosDelayBranch ⟨0, 1, 200⟩ 0 250 (fun _ => true) ≠ .panicked
    ∧ (∀ d, chaosDelayBranch ⟨0, 1, 200⟩ 0 250 (fun _ => true) = .slept d →
        d < (200 : Int).toNat ∧ (fun _ : Nat => true) d = false)
    ∧ ((0 : ℚ) < 1 →
        (fun _ : Nat => true) (250 % (200 : Int).toNat) = true →
        chaosDelayBranch ⟨0, 1, 200⟩ 0 250 (fun _ => true) = .ctxCancelled) :=
  chaosDelay_welldefined_when_positive ⟨0, 1, 200⟩ 0 250 (fun _ => true)
    (by norm_num)

/-! ## Control-plane web server (part_000 / `internal/web/server.go`)

Only the state the claims touch is modelled: the current-run pointer, the
reports list, and the fields of `TestRun` / `TestReport` the handlers
read or write (`StartTime`, `EndTime` and the metrics snapshot carry no
information relevant to the claims and are omitted). -/

structure TestRun where
  users : Int
  duration : String
  ramp : String
  status : String
deriving DecidableEq, Repr

structure TestReport where
  id : Nat
  users : Int
  duration : String
  ramp : String
  status : String
  trackedUsers : List String
deriving DecidableEq, Repr

structure WebState where
  currentTest : Option TestRun
  reports : List TestReport
deriving DecidableEq, Repr

/-- `WebServer.handleReports` (part_000 lines 655–666): when more than
five reports exist, return the slice `reports[len(reports)-5:]`, i.e. the
last five in the order they were appended; otherwise return them all. -/
def handleReportsBody (reports : List TestReport) : List TestReport :=
  if 5 < reports.length then reports.drop (reports.length - 5) else reports

/-- A report with a given id; all other fields as produced by a completed
run with no users. -/
def mkReport (i : Nat) : TestReport :=
  { id := i, users := 0, duration := "1s", ramp := "0/s",
    status := "completed", trackedUsers := [] }

/-- Claim C7 counterexample: with six reports appended in id order, the
handler returns reports 2–6 with the oldest of the five first — appended
order, not reverse chronological order (newest first would put report 6
first). -/
theorem handleReports_not_newest_first :
    handleReportsBody
        [mkReport 1, mkReport 2, mkReport 3, mkReport 4, mkReport 5, mkReport 6]
      = [mkReport 2, mkReport 3, mkReport 4, mkReport 5, mkReport 6]
    ∧ mkReport 2 ≠ mkReport 6 := by decide

/-- Claim C7 (amended): the report query returns the last five reports in
chronological order — newest last — and for any state with more than five
reports, exactly the five most recent (a length-5 suffix of the reports
list). -/
theorem handleReports_last_five_newest_last (reports : List TestReport) :
    handleReportsBody reports = reports.drop (reports.length - 5)
    ∧ (handleReportsBody reports).length = min 5 reports.length
    ∧ (handleReportsBody reports).IsSuffix reports := by
  refine ⟨?_, ?_, ?_⟩
  · by_cases h : 5 < reports.length
    · simp [handleReportsBody, h]
    · have : reports.length - 5 = 0 := by omega
      simp [handleReportsBody, h, this]
  · by_cases h : 5 < reports.length
    · simp [handleReportsBody, h]
      omega
    · simp [handleReportsBody, h]
      omega
  · by_cases h : 5 < reports.length
    · simp only [handleReportsBody, h, if_pos]
      exact ⟨reports.take (reports.length - 5), List.take_append_drop _ _⟩
    · simp [handleReportsBody, h]

/-- `WebServer.runTest` (part_000 lines 668–706), from the point of view
of the control-plane state.  `parsedDuration` is the outcome of
`time.ParseDuration(req.Duration)`: on failure the current run, if any, is
marked `error` and nothing else happens.  Otherwise the generator runs to
completion and then, under the write lock: the report's status is
`stopped` when the current run is marked stopped and `completed`
otherwise, a report is appended, and the current-run pointer is set to
nil — whatever run the pointer holds by then.  `tracked` is
`gen.GetTrackedUsers()` at completion. -/
def runTest (st : WebState) (req : TestRun) (parsedDuration : Option Nat)
    (tracked : List String) : WebState :=
  match parsedDuration with
  | none =>
      { st with currentTest := st.currentTest.map (fun t => { t with status := "error" }) }
  | some _ =>
      let status :=
        match st.currentTest with
        | some t => if t.status = "stopped" then "stopped" else "completed"
        | none => "completed"
      { currentTest := none,
        reports := st.reports ++
          [{ id := st.reports.length + 1, users := req.users,
             duration := req.duration, ramp := req.ramp, status := status,
             trackedUsers := tracked }] }

/-- Claim C10: whenever `runTest` completes with a valid duration, it
appends exactly one report (leaving the existing reports untouched) and
sets the current-run pointer to nil, unconditionally — in particular for
any state whose current-run pointer holds a newer, still-running run, that
record is discarded from the pointer. -/
theorem runTest_appends_and_clears_current
    (st : WebState) (req : TestRun) (d : Nat) (tracked : List String) :
    (runTest st req (some d) tracked).currentTest = none
    ∧ (runTest st req (some d) tracked).reports.length = st.reports.length + 1
    ∧ (runTest st req (some d) tracked).reports.take st.reports.length
        = st.reports := by
  refine ⟨rfl, by simp [runTest], ?_⟩
  simp [runTest]

/-! ## `ChatBehavior.SendMessage` (part_002 lines 115–143) -/

/-- A WebSocket write performed by a chat send. -/
inductive WsEvent where
  | write (frame : String)
deriving DecidableEq, Repr

/-- `SendMessage`: when `c.conn` is nil, increment
`requests_total{chat,send_message,no_connection}` and return — no write,
no reconnection.  Otherwise build the Socket.IO `42["message",...]` frame
and write it; a write error records status `error` and drops the
connection, success records status `200`.  Returns (connection present
afterwards, status label recorded, WebSocket writes performed).  The
deferred `request_duration_seconds` observation happens in every case and
carries no information for the claims. -/
def sendMessage (connPresent : Bool) (message : String) (writeOk : Bool) :
    Bool × String × List WsEvent :=
  if connPresent = false then (false, "no_connection", [])
  else
    let frame := "42[\"message\",\x7b\"message\":\"" ++ message ++
      "\",\"room\":\"general\",\"isPrivate\":false\x7d]"
    if writeOk then (true, "200", [.write frame])
    else (false, "error", [.write frame])

/-- Claim C9: a chat send invoked with no WebSocket connection records the
`no_connection` status, performs no network I/O (no WebSocket write), does
not reconnect (the connection field stays empty), and returns — for every
message and whatever the write oracle would have answered. -/
theorem sendMessage_no_connection (message : String) (writeOk : Bool) :
    sendMessage false message writeOk = (false, "no_connection", []) := rfl

/-! ## Report snapshot aliasing (C6)

`runTest` stores `gen.GetTrackedUsers()` in the report (part_000 line
701); `Generator.GetTrackedUsers` (part_001 lines 82–84) and
`Cleanup.GetTrackedUsers` (cleanup.go lines 202–204) both return the
tracker's slice `c.users` itself, so the report holds the slice header —
backing array and length — not a copy.  To settle what later tracker
operations can do to the report's contents, Go slices are modelled
explicitly: a heap of backing arrays (each list is the occupied prefix of
one array), the id of the array the tracker's slice currently points at,
and an allocation counter (ids `≥ next` are unallocated). -/

structure TrackerHeap where
  arrays : Nat → List String
  tracked : Nat
  next : Nat

/-- The tracker's current list, `c.users`. -/
def TrackerHeap.users (h : TrackerHeap) : List String := h.arrays h.tracked

/-- A stored slice header, as kept in a report's `tracked_users` field. -/
structure SliceRef where
  arr : Nat
  len : Nat
deriving DecidableEq, Repr

/-- What `runTest` stores into the report: the header of `c.users` at run
completion. -/
def TrackerHeap.snapshot (h : TrackerHeap) : SliceRef :=
  ⟨h.tracked, h.users.length⟩

/-- The contents visible through a stored slice header. -/
def TrackerHeap.view (h : TrackerHeap) (s : SliceRef) : List String :=
  (h.arrays s.arr).take s.len

/-- `AddUser` (cleanup.go lines 192–200) on the heap: append when the
username is absent.  Go's `append` writes into the existing backing array
when spare capacity remains, and moves the slice to a freshly allocated
array when not; capacity is not tracked, so which of the two happens is an
explicit input (`realloc`) and all results hold for both. -/
def TrackerHeap.addUser (h : TrackerHeap) (u : String) (realloc : Bool) :
    TrackerHeap :=
  if u ∈ h.users then h
  else if realloc then
    { arrays := fun i => if i = h.next then h.users ++ [u] else h.arrays i,
      tracked := h.next, next := h.next + 1 }
  else
    { h with
      arrays := fun i => if i = h.tracked then h.users ++ [u] else h.arrays i }

/-- The tracked-list removal pattern shared by `DeleteUser` (cleanup.go
lines 509–516), `ReduceLoad` (lines 231–244) and `DeleteTestUsers` (lines
359–369): `remaining := make([]string, 0)` allocates a fresh backing
array, survivors are appended to it, and `c.users = remaining` redirects
the tracker's slice.  `dropped` is whatever list the loop filters against
(the acknowledged deletions, or `selectedUsers` for `ReduceLoad`); the old
backing array is never written. -/
def TrackerHeap.removeUsers (h : TrackerHeap) (dropped : List String) :
    TrackerHeap :=
  { arrays := fun i =>
      if i = h.next then h.users.filter (fun u => u ∉ dropped) else h.arrays i,
    tracked := h.next, next := h.next + 1 }

/-- A tracker operation that can run after a report has been appended. -/
inductive TrackerOp where
  | add (u : String) (realloc : Bool)
  | remove (dropped : List String)

def TrackerHeap.apply (h : TrackerHeap) : TrackerOp → TrackerHeap
  | .add u realloc => h.addUser u realloc
  | .remove dropped => h.removeUsers dropped

def TrackerHeap.applyAll (h : TrackerHeap) (ops : List TrackerOp) :
    TrackerHeap :=
  ops.foldl TrackerHeap.apply h

/-- Invariant tying a stored slice header to the evolving heap: allocated
ids sit below `next`, the stored view is fixed at `v`, and while the
tracker still points at the stored array its list is at least as long as
the stored length (appends only ever write beyond it). -/
def SnapInv (s : SliceRef) (v : List String) (h : TrackerHeap) : Prop :=
  h.tracked < h.next ∧ s.arr < h.next ∧ (h.arrays s.arr).take s.len = v
  ∧ (h.tracked = s.arr → s.len ≤ (h.arrays s.arr).length)

lemma snapInv_apply {s : SliceRef} {v : List String} {h : TrackerHeap}
    (hinv : SnapInv s v h) (op : TrackerOp) : SnapInv s v (h.apply op) := by
  obtain ⟨h1, h2, h3, h4⟩ := hinv
  have hne : s.arr ≠ h.next := Nat.ne_of_lt h2
  cases op with
  | add u realloc =>
    by_cases hu : u ∈ h.users
    · simpa [TrackerHeap.apply, TrackerHeap.addUser, hu] using ⟨h1, h2, h3, h4⟩
    · cases realloc with
      | true =>
        have happ : h.apply (.add u true) =
            { arrays := fun i => if i = h.next then h.users ++ [u] else h.arrays i,
              tracked := h.next, next := h.next + 1 } := by
          simp [TrackerHeap.apply, TrackerHeap.addUser, hu]
        rw [happ]
        refine ⟨Nat.lt_succ_self _, Nat.lt_succ_of_lt h2, ?_, ?_⟩
        · simpa [hne] using h3
        · intro hcontra
          exact absurd hcontra.symm hne
      | false =>
        have happ : h.apply (.add u false) =
            { h with arrays := fun i =>
                if i = h.tracked then h.users ++ [u] else h.arrays i } := by
          simp [TrackerHeap.apply, TrackerHeap.addUser, hu]
        rw [happ]
        by_cases ht : h.tracked = s.arr
        · refine ⟨h1, h2, ?_, ?_⟩
          · have harr : h.users = h.arrays s.arr := by
              rw [TrackerHeap.users, ht]
            simp only [ht, eq_self_iff_true, if_true]
            rw [harr, List.take_append_of_le_length (h4 ht)]
            exact h3
          · intro _
            simp only [ht, eq_self_iff_true, if_true, List.length_append]
            have hlen : h.users.length = (h.arrays s.arr).length := by
              rw [TrackerHeap.users, ht]
            have := h4 ht
            omega
        · have hsa : s.arr ≠ h.tracked := fun hcontra => ht hcontra.symm
          refine ⟨h1, h2, ?_, fun hcontra => absurd hcontra ht⟩
          simpa [hsa] using h3
  | remove dropped =>
    have happ : h.apply (.remove dropped) =
        { arrays := fun i =>
            if i = h.next then h.users.filter (fun u => u ∉ dropped)
            else h.arrays i,
          tracked := h.next, next := h.next + 1 } := rfl
    rw [happ]
    refine ⟨Nat.lt_succ_self _, Nat.lt_succ_of_lt h2, ?_, ?_⟩
    · simpa [hne] using h3
    · intro hcontra
      exact absurd hcontra.symm hne

lemma snapInv_applyAll {s : SliceRef} {v : List String} (ops : List TrackerOp) :
    ∀ {h : TrackerHeap}, SnapInv s v h → SnapInv s v (h.applyAll ops) := by
  induction ops with
  | nil => intro h hinv; simpa [TrackerHeap.applyAll] using hinv
  | cons op rest ih =>
    intro h hinv
    exact ih (snapInv_apply hinv op)

/-- The tracker state after a run appended one user in place. -/
def aliasDemoH1 : TrackerHeap :=
  TrackerHeap.addUser ⟨fun _ => [], 0, 1⟩ "user_1" false

/-- The same tracker after a later `AddUser` that appends in place. -/
def aliasDemoH2 : TrackerHeap := aliasDemoH1.addUser "user_2" false

/-- Claim C6 counterexample: the report's `tracked_users` field is not a
frozen copy.  The header stored at run completion references the very
backing array the tracker keeps using (`arr = tracked`), and a later
`AddUser` writes into that array — its contents change from `["user_1"]`
to `["user_1", "user_2"]` — even though the report's visible prefix
happens to stay the same. -/
theorem report_snapshot_is_alias_not_copy :
    aliasDemoH1.snapshot.arr = aliasDemoH1.tracked
    ∧ aliasDemoH2.arrays aliasDemoH1.snapshot.arr
        ≠ aliasDemoH1.arrays aliasDemoH1.snapshot.arr
    ∧ aliasDemoH2.view aliasDemoH1.snapshot
        = aliasDemoH1.view aliasDemoH1.snapshot := by
  refine ⟨rfl, ?_, rfl⟩
  decide

/-- Claim C6 (amended): the report stores the tracker's slice itself — an
alias, not a copy — but the contents visible through an already-appended
report's `tracked_users` field still never change: every removal redirects
the tracker to a freshly allocated array and appends only write beyond the
stored length, so any sequence of later tracker operations (`AddUser`,
`DeleteUser`, `ReduceLoad`, `DeleteTestUsers` removals) leaves the
report's view intact. -/
theorem report_view_unchanged (h : TrackerHeap) (ops : List TrackerOp)
    (hwf : h.tracked < h.next) :
    (h.applyAll ops).view h.snapshot = h.view h.snapshot := by
  have hbase : SnapInv h.snapshot (h.view h.snapshot) h :=
    ⟨hwf, hwf, rfl, fun _ => by
      simp [TrackerHeap.snapshot, TrackerHeap.users]⟩
  have hfin := snapInv_applyAll ops hbase
  exact hfin.2.2.1

/-- Claim C6 witness. -/
theorem report_view_unchanged_witness :
    (aliasDemoH1.applyAll [.add "user_2" false, .remove ["user_1"]]).view
        aliasDemoH1.snapshot
      = aliasDemoH1.view aliasDemoH1.snapshot :=
  report_view_unchanged aliasDemoH1 [.add "user_2" false, .remove ["user_1"]]
    (by decide)

end Loadgen
